import Mathlib

/-!
Shallow embedding of the `docen` Dockerfile generator (package `docen`,
file `docen.go`) and verification of its specification.

Go strings are modelled as Lean `String`/`List Char`; Go maps
`map[string]bool` used as string sets are modelled as insertion-ordered
duplicate-free key lists (Go map iteration order is unspecified; the
insertion order is our determinization).  Go `nil` maps are a distinct
constructor, since assigning into a nil map panics.  Functions that can
panic return `Option` (`none` models the panic); fallible I/O results are
passed in explicitly through an `Env` record mirroring the package's
replaceable globals (`runVer`, `openFile`, `readDir`) and the final
`os.WriteFile` outcome.
-/

namespace DocenModel

/-- `const defaultAppName = "app"` -/
def defaultAppName : String := "app"

/-- `const defaultTagVersion = "alpine"` -/
def defaultTagVersion : String := "alpine"

/-- One entry of a directory listing: the parts of `fs.FileInfo` the
package reads (`Name()` and `IsDir()`). -/
structure FileInfo where
  name : String
  isDir : Bool
deriving DecidableEq, Repr

/-- The environment a run observes: `runtime.Version()`, the `go.mod`
content (`none` when `os.Open` fails), the working-directory listing
(`none` when `ioutil.ReadDir` fails), and the `os.WriteFile` outcome
(`some e` when the write fails with error `e`). -/
structure Env where
  runVer : String
  goMod : Option String
  listing : Option (List FileInfo)
  writeErr : Option String

/-- A Go `map[string]bool` used as a string set: either the nil map or an
insertion-ordered list of distinct keys. -/
inductive GoMapSet where
  | nilMap : GoMapSet
  | keys : List String → GoMapSet
deriving DecidableEq, Repr

/-- Key insertion on the underlying key list (`a[e] = true` on a non-nil
map): no change when present, append when absent. -/
def setKeys (ks : List String) (e : String) : List String :=
  if e ∈ ks then ks else ks ++ [e]

/-- `func (a additionalInfo) set(e string)`: assigning into a nil map
panics (`none`); otherwise the key is inserted. -/
def GoMapSet.set : GoMapSet → String → Option GoMapSet
  | .nilMap, _ => none
  | .keys ks, e => some (.keys (setKeys ks e))

/-- Key membership of a map set (nil map has no keys). -/
def GoMapSet.memb : GoMapSet → String → Bool
  | .nilMap, _ => false
  | .keys ks, e => decide (e ∈ ks)

/-- Number of occurrences of a key in the model's key list (a faithful
model keeps this at most 1). -/
def GoMapSet.countKey : GoMapSet → String → Nat
  | .nilMap, _ => 0
  | .keys ks, e => ks.count e

/-- `range` over the map: nil maps iterate zero times. -/
def GoMapSet.toList : GoMapSet → List String
  | .nilMap => []
  | .keys ks => ks

/-- The `Docen` struct. -/
structure Docen where
  timezone : String
  version : String
  port : String
  additionFolders : GoMapSet
  additionFiles : GoMapSet
  isTestMode : Bool
deriving DecidableEq, Repr

/-- The zero value `Docen{}` (all strings empty, both maps nil). -/
def zeroDocen : Docen := ⟨"", "", "", .nilMap, .nilMap, false⟩

/-! ### getVersion -/

/-- Character class of the regexp `[0-9.]+`. -/
def digitOrDot (c : Char) : Bool := c.isDigit || c = '.'

/-- Maximal runs of `[0-9.]` characters, in order of appearance
(`regexp.FindAllString(v, -1)` for the pattern `[0-9.]+`).  `cur` holds
the current run reversed. -/
def numRunsAux : List Char → List Char → List (List Char)
  | cur, [] => if cur = [] then [] else [cur.reverse]
  | cur, c :: cs =>
    if digitOrDot c then numRunsAux (c :: cur) cs
    else if cur = [] then numRunsAux [] cs
    else cur.reverse :: numRunsAux [] cs

/-- `func getVersion() string`, parameterized by the `runVer()` result.
`strings.Join(version, "")` is the concatenation of the runs. -/
def getVersion (v : String) : String :=
  let runs := numRunsAux [] v.toList
  if runs = [] then defaultTagVersion
  else String.mk runs.flatten ++ "-" ++ defaultTagVersion

/-! ### parsePackageName / getPackageName -/

/-- `bufio.Reader.ReadLine` on the whole file content: `io.EOF` (`none`)
on empty input, otherwise the first line without its terminator; a final
`\r` is dropped only when the line was terminated by `\n`. -/
def readFirstLine (content : String) : Option (List Char) :=
  if content.toList = [] then none
  else
    let line := content.toList.takeWhile (fun x => x ≠ '\n')
    some (if line.length < content.toList.length ∧ line.getLast? = some '\r'
          then line.dropLast else line)

/-- `strings.ReplaceAll` (leftmost, non-overlapping) with explicit fuel;
every call site uses a non-empty pattern and fuel `=` input length, which
is enough since each step consumes at least one character. -/
def replaceAllGo (pat rep : List Char) : Nat → List Char → List Char
  | _, [] => []
  | 0, l => l
  | fuel + 1, c :: cs =>
    if pat.isPrefixOf (c :: cs) then
      rep ++ replaceAllGo pat rep fuel (cs.drop (pat.length - 1))
    else c :: replaceAllGo pat rep fuel cs

/-- `strings.ReplaceAll(s, pat, rep)` for non-empty `pat`. -/
def replaceAllL (pat rep l : List Char) : List Char :=
  replaceAllGo pat rep l.length l

/-- The line-processing part of `parsePackageName`: strip the `module `
keyword, strip quotation marks when the remainder starts with one, split
on `/`, take the last segment and replace periods by underscores.
`none` models the panic of `module[0]` when the stripped line is empty
(index out of range). -/
def parseModuleLine (line : List Char) : Option String :=
  match replaceAllL "module ".toList [] line with
  | [] => none
  | c :: cs =>
    some (String.mk (replaceAllL ['.'] ['_']
      (((if c = '"' then replaceAllL ['"'] [] (c :: cs) else c :: cs).splitOn
          '/').getLastD [])))

/-- `func parsePackageName(r io.Reader) string` on the reader's content:
fallback when the first read fails, otherwise process the first line. -/
def parsePackageName (content : String) : Option String :=
  match readFirstLine content with
  | none => some defaultAppName
  | some line => parseModuleLine line

/-- `func getPackageName() string`: fallback when `go.mod` cannot be
opened, otherwise parse its content (propagating a parse panic). -/
def getPackageName (goMod : Option String) : Option String :=
  match goMod with
  | none => some defaultAppName
  | some content => parsePackageName content

/-! ### Directory probes -/

/-- Allow-list membership `additionalFolders[name]`. -/
def allowedFolder (n : String) : Bool :=
  n == "static" || n == "assets" || n == "templates" || n == "config"

/-- `func getAdditionalFolders() additionalInfo`: empty set on listing
failure, otherwise the listed directories on the allow-list. -/
def getAdditionalFolders (listing : Option (List FileInfo)) : GoMapSet :=
  match listing with
  | none => .keys []
  | some fs =>
    .keys (fs.foldl
      (fun acc f => if f.isDir && allowedFolder f.name then setKeys acc f.name else acc) [])

/-- `func isVendorMode() bool`: false on listing failure, otherwise true
iff some listed entry is a directory named exactly `vendor`. -/
def isVendorMode (listing : Option (List FileInfo)) : Bool :=
  match listing with
  | none => false
  | some fs => fs.any (fun f => f.isDir && f.name == "vendor")

/-! ### filepath.Dir (Unix) -/

/-- Segment-level model of `path/filepath.Clean` (Unix, empty volume
name): `acc` collects output segments; `..` pops a poppable segment, is
dropped at the root, and is kept when nothing is poppable and the path is
relative. -/
def cleanLoop (rooted : Bool) : List (List Char) → List (List Char) → List (List Char)
  | acc, [] => acc
  | acc, seg :: rest =>
    if seg = [] ∨ seg = ['.'] then cleanLoop rooted acc rest
    else if seg = ['.', '.'] then
      if acc ≠ [] ∧ acc.getLast? ≠ some ['.', '.'] then cleanLoop rooted acc.dropLast rest
      else if rooted then cleanLoop rooted acc rest
      else cleanLoop rooted (acc ++ [seg]) rest
    else cleanLoop rooted (acc ++ [seg]) rest

/-- `filepath.Clean` (Unix). -/
def pathClean (p : String) : String :=
  match p.toList with
  | [] => "."
  | c :: cs =>
    let rooted := c = '/'
    let segs := cleanLoop rooted [] ((c :: cs).splitOn '/')
    let body := String.mk (List.intercalate ['/'] segs)
    if rooted then "/" ++ body
    else if segs = [] then "." else body

/-- `filepath.Dir` (Unix): everything up to and including the last `/`
(empty when there is none), then `Clean`. -/
def filepathDir (path : String) : String :=
  pathClean (String.mk ((path.toList.reverse.dropWhile (fun c => c ≠ '/')).reverse))

/-! ### Builder API -/

/-- `func New() *Docen`. -/
def New (env : Env) : Docen :=
  ⟨"", getVersion env.runVer, "", getAdditionalFolders env.listing, .keys [], false⟩

/-- `func (d *Docen) SetGoVersion(version string) *Docen`. -/
def SetGoVersion (d : Docen) (version : String) : Docen :=
  ⟨d.timezone, version ++ "-" ++ defaultTagVersion, d.port,
   d.additionFolders, d.additionFiles, d.isTestMode⟩

/-- `func (d *Docen) SetPort(port string) *Docen`. -/
def SetPort (d : Docen) (port : String) : Docen :=
  ⟨d.timezone, d.version, port, d.additionFolders, d.additionFiles, d.isTestMode⟩

/-- `func (d *Docen) SetTimezone(timezone string) *Docen`. -/
def SetTimezone (d : Docen) (timezone : String) : Docen :=
  ⟨timezone, d.version, d.port, d.additionFolders, d.additionFiles, d.isTestMode⟩

/-- `func (d *Docen) SetAdditionalFolder(path string) *Docen`; `none`
models the nil-map assignment panic. -/
def SetAdditionalFolder (d : Docen) (path : String) : Option Docen :=
  (d.additionFolders.set path).map
    (fun m => ⟨d.timezone, d.version, d.port, m, d.additionFiles, d.isTestMode⟩)

/-- `func (d *Docen) SetAdditionalFile(path string) *Docen`: insert the
file, then `SetAdditionalFolder(filepath.Dir(path))`. -/
def SetAdditionalFile (d : Docen) (path : String) : Option Docen :=
  (d.additionFiles.set path).bind
    (fun m => SetAdditionalFolder
      ⟨d.timezone, d.version, d.port, d.additionFolders, m, d.isTestMode⟩
      (filepathDir path))

/-- `func (d *Docen) SetTestMode(mode bool) *Docen`. -/
def SetTestMode (d : Docen) (mode : Bool) : Docen :=
  ⟨d.timezone, d.version, d.port, d.additionFolders, d.additionFiles, mode⟩

/-! ### GenerateDockerfile -/

/-- The build directive: `RUN CGO_ENABLED=0 ... go build %s -ldflags... -o /%s`
with the optional `-mod=vendor` tag. -/
def buildDirective (packageName : String) (vendorMode : Bool) : String :=
  "RUN CGO_ENABLED=0 GOOS=linux GOARCH=amd64 go build " ++
    (if vendorMode then "-mod=vendor" else "") ++
    " -ldflags=\"-w -s\" -o /" ++ packageName

/-- The lines written by `GenerateDockerfile` (each `data.WriteString`
call writes one line terminated by `\n`). -/
def renderLines (d : Docen) (packageName : String) (vendorMode : Bool) : List String :=
  ["FROM golang:" ++ d.version ++ " as builder",
   "RUN apk update && apk add --no-cache git ca-certificates tzdata && update-ca-certificates",
   "RUN adduser -D -g '' appuser",
   "RUN mkdir -p /" ++ packageName]
  ++ d.additionFolders.toList.map (fun v => "RUN mkdir -p /" ++ packageName ++ "/" ++ v)
  ++ ["COPY . /" ++ packageName,
      "WORKDIR /" ++ packageName]
  ++ (if d.isTestMode then ["RUN CGO_ENABLED=0 go test ./..."] else [])
  ++ [buildDirective packageName vendorMode]
  ++ ["FROM scratch",
      "COPY --from=builder /usr/share/zoneinfo /usr/share/zoneinfo",
      "COPY --from=builder /etc/ssl/certs/ca-certificates.crt /etc/ssl/certs/",
      "COPY --from=builder /etc/passwd /etc/passwd"]
  ++ (if d.timezone ≠ "" then ["ENV TZ=" ++ d.timezone] else [])
  ++ ["COPY --from=builder /" ++ packageName ++ " /" ++ packageName]
  ++ d.additionFolders.toList.map
      (fun v => "COPY --from=builder /" ++ packageName ++ "/" ++ v ++
                " /" ++ packageName ++ "/" ++ v)
  ++ d.additionFiles.toList.map
      (fun v => "COPY --from=builder /" ++ packageName ++ "/" ++ v ++
                " /" ++ packageName ++ "/" ++ v)
  ++ ["USER appuser"]
  ++ (if d.port ≠ "" then ["EXPOSE " ++ d.port] else [])
  ++ ["ENTRYPOINT [\"/" ++ packageName ++ "\"]"]

/-- The assembled text (`data.String()`): the lines each followed by `\n`. -/
def dockerText (lines : List String) : String :=
  String.join (lines.map (fun l => l ++ "\n"))

/-- `func createDockerfile(data string) error`: the `os.WriteFile`
outcome supplied by the environment. -/
def createDockerfile (writeErr : Option String) (_data : String) : Except String Unit :=
  match writeErr with
  | none => Except.ok ()
  | some e => Except.error e

/-- The lines `GenerateDockerfile` assembles under `env`; `none` when the
project-name resolution panics before assembly. -/
def assembledLines (d : Docen) (env : Env) : Option (List String) :=
  (getPackageName env.goMod).map
    (fun pn => renderLines d pn (isVendorMode env.listing))

/-- `func (d *Docen) GenerateDockerfile() error`: assemble, then write;
`none` models the parse panic reaching the caller as an abort. -/
def generateDockerfile (d : Docen) (env : Env) : Option (Except String Unit) :=
  (assembledLines d env).map (fun ls => createDockerfile env.writeErr (dockerText ls))

/-! ### Notions used by the claims -/

/-- Occurrence of `pat` as a contiguous substring of a character list. -/
def occursIn (pat : List Char) : List Char → Bool
  | [] => pat.isEmpty
  | c :: cs => pat.isPrefixOf (c :: cs) || occursIn pat cs

/-- The vendor-build flag token. -/
def vendorFlagChars : List Char := "-mod=vendor".toList

/-- The expose-directive line prefix. -/
def exposePat : List Char := "EXPOSE ".toList

/-- The timezone-directive line prefix. -/
def tzPat : List Char := "ENV TZ=".toList

/-- Some emitted line starts with the given prefix. -/
def linesHavePrefix (pat : List Char) (ls : List String) : Bool :=
  ls.any (fun l => pat.isPrefixOf l.toList)

/-- The last `/`-delimited segment of `X` with every period replaced by
an underscore (the spec's description of the resolved identifier). -/
def lastSegUnderscored (X : String) : String :=
  String.mk (((X.toList.splitOn '/').getLastD []).map
    (fun c => if c = '.' then '_' else c))

/-- `n` consecutive `SetAdditionalFile` calls with the same path. -/
def addFileN (d : Docen) (p : String) : Nat → Option Docen
  | 0 => some d
  | n + 1 => (SetAdditionalFile d p).bind (fun d2 => addFileN d2 p n)

/-! ### The round-trip scenario -/

/-- `containsInOrder pats ls` holds when `pats` occurs as a subsequence
of `ls` (each pattern matched by an exactly equal line, in order). -/
def containsInOrder : List String → List String → Bool
  | [], _ => true
  | _ :: _, [] => false
  | p :: ps, l :: ls =>
    if l = p then containsInOrder ps ls else containsInOrder (p :: ps) ls

/-- Environment of the round-trip scenario: a `go.mod` naming the
project `docen`, an empty working-directory listing, successful write. -/
def scenarioEnv : Env := ⟨"go1.13", some "module github.com/lobz1g/docen", some [], none⟩

/-- The round-trip configuration: version `1.14.9`, port `3000`,
timezone `Europe/Moscow`, test mode on, extra folder
`my-folder/some-files`, extra file `another-folder/some-files/file`. -/
def scenarioDocen : Option Docen :=
  (SetAdditionalFolder
    (SetTestMode
      (SetTimezone (SetPort (SetGoVersion (New scenarioEnv) "1.14.9") "3000")
        "Europe/Moscow")
      true)
    "my-folder/some-files").bind
    (fun d => SetAdditionalFile d "another-folder/some-files/file")

/-- The lines the scenario assembles. -/
def scenarioText : Option (List String) :=
  scenarioDocen.bind (fun d => assembledLines d scenarioEnv)

/-- The six directives in the order the claim lists them: header, test,
build, expose, timezone, then the two copies. -/
def claimedOrder : List String :=
  ["FROM golang:1.14.9-alpine as builder",
   "RUN CGO_ENABLED=0 go test ./...",
   buildDirective "docen" false,
   "EXPOSE 3000",
   "ENV TZ=Europe/Moscow",
   "COPY --from=builder /docen/my-folder/some-files /docen/my-folder/some-files",
   "COPY --from=builder /docen/another-folder/some-files/file /docen/another-folder/some-files/file"]

/-- The same directives in the order the code emits them: the timezone
directive and the copy directives precede the expose directive. -/
def actualOrder : List String :=
  ["FROM golang:1.14.9-alpine as builder",
   "RUN CGO_ENABLED=0 go test ./...",
   buildDirective "docen" false,
   "ENV TZ=Europe/Moscow",
   "COPY --from=builder /docen/my-folder/some-files /docen/my-folder/some-files",
   "COPY --from=builder /docen/another-folder/some-files/file /docen/another-folder/some-files/file",
   "EXPOSE 3000"]

example : getVersion "go1.13" = "1.13-alpine" := by decide
example : getVersion "without version" = "alpine" := by decide
example : parsePackageName "module github.com/lobz1g/docen" = some "docen" := by decide
example : parsePackageName "module \"testmodulename\"" = some "testmodulename" := by decide
example : parsePackageName "" = some "app" := by decide
example : parsePackageName "\n" = none := by decide
example : filepathDir "another-folder/some-files/file" = "another-folder/some-files" := by decide
example : filepathDir "file" = "." := by decide

/-! ### Lemmas about the key-set model -/

theorem setKeys_nil (e : String) : setKeys [] e = [e] := by simp [setKeys]

theorem mem_setKeys_self (ks : List String) (e : String) : e ∈ setKeys ks e := by
  unfold setKeys
  split
  · assumption
  · simp

theorem setKeys_mem_id (ks : List String) (e : String) (h : e ∈ ks) :
    setKeys ks e = ks := by
  unfold setKeys
  rw [if_pos h]

theorem getAdditionalFolders_keys (listing : Option (List FileInfo)) :
    ∃ ks, getAdditionalFolders listing = .keys ks := by
  cases listing <;> exact ⟨_, rfl⟩

theorem addFileN_fixed (d : Docen) (p : String) (h : SetAdditionalFile d p = some d) :
    ∀ n, addFileN d p n = some d
  | 0 => rfl
  | n + 1 => by
    rw [addFileN, h]
    exact addFileN_fixed d p h n

theorem setAdditionalFile_new (env : Env) (p : String) (gs : List String)
    (hg : getAdditionalFolders env.listing = .keys gs) :
    SetAdditionalFile (New env) p =
      some ⟨"", getVersion env.runVer, "", .keys (setKeys gs (filepathDir p)),
            .keys [p], false⟩ := by
  simp [SetAdditionalFile, SetAdditionalFolder, New, hg, GoMapSet.set, setKeys_nil]

/-! ### Lemmas about prefixes and substring occurrence -/

theorem toList_append (s t : String) : (s ++ t).toList = s.toList ++ t.toList := rfl

theorem isPrefixOf_self_append (l t : List Char) : l.isPrefixOf (l ++ t) = true := by
  induction l with
  | nil => cases t <;> rfl
  | cons a as ih => simp [List.isPrefixOf, ih]

theorem isPrefixOf_append_of_le (pat lit rest : List Char) (h : pat.length ≤ lit.length) :
    pat.isPrefixOf (lit ++ rest) = pat.isPrefixOf lit := by
  induction pat generalizing lit with
  | nil => simp [List.isPrefixOf]
  | cons a as ih =>
    cases lit with
    | nil => simp at h
    | cons b bs =>
      simp only [List.cons_append, List.isPrefixOf]
      congr 1
      show as.isPrefixOf (bs ++ rest) = as.isPrefixOf bs
      exact ih bs (by simp at h; omega)

theorem prefix_bash (pat lit t : List Char) (l : String)
    (hl : l.toList = lit ++ t)
    (hlen : pat.length ≤ lit.length)
    (hfalse : pat.isPrefixOf lit = false)
    (hp : pat.isPrefixOf l.toList = true) : False := by
  rw [hl, isPrefixOf_append_of_le _ _ _ hlen, hfalse] at hp
  exact Bool.false_ne_true hp

theorem occursIn_append_of (pat s t : List Char) (h : occursIn pat t = true) :
    occursIn pat (s ++ t) = true := by
  induction s with
  | nil => simpa using h
  | cons c cs ih => simp [occursIn, ih]

theorem occursIn_self_append (pat t : List Char) : occursIn pat (pat ++ t) = true := by
  cases pat with
  | nil => cases t <;> simp [occursIn, List.isPrefixOf]
  | cons a as => simp [occursIn, isPrefixOf_self_append]

theorem occursIn_sub (pat l : List Char) (h : occursIn pat l = true) :
    ∀ c ∈ pat, c ∈ l := by
  induction l with
  | nil =>
    intro c hc
    simp [occursIn, List.isEmpty_iff] at h
    subst h
    simp at hc
  | cons a as ih =>
    intro c hc
    simp only [occursIn, Bool.or_eq_true] at h
    rcases h with h | h
    · exact (List.isPrefixOf_iff_prefix.mp h).subset hc
    · exact List.mem_cons_of_mem _ (ih h c hc)

theorem bool_clash {x : Bool} (ht : x = true) (hf : x = false) : False := by
  rw [hf] at ht
  exact Bool.false_ne_true ht

theorem prefix_bash2 (pat lit t : List Char) (l : String)
    (hp : pat.isPrefixOf l.toList = true)
    (hl : l.toList = lit ++ t)
    (hlen : pat.length ≤ lit.length)
    (hfalse : pat.isPrefixOf lit = false) : False := by
  rw [hl, isPrefixOf_append_of_le _ _ _ hlen, hfalse] at hp
  exact Bool.false_ne_true hp

theorem mem_ite_singleton {p : Prop} [Decidable p] (a x : String) :
    (a ∈ if p then [x] else []) ↔ p ∧ a = x := by
  split <;> rename_i h <;> simp [h]

/-- Only the optional expose and timezone lines can carry a length-7
line prefix that none of the other directive templates carries. -/
theorem matched_line_cases (d : Docen) (pn : String) (vm : Bool) (pat : List Char)
    (hlen : pat.length ≤ 7)
    (hFROMg : pat.isPrefixOf "FROM golang:".toList = false)
    (hApk : pat.isPrefixOf
      "RUN apk update && apk add --no-cache git ca-certificates tzdata && update-ca-certificates".toList = false)
    (hAdd : pat.isPrefixOf "RUN adduser -D -g '' appuser".toList = false)
    (hMkd : pat.isPrefixOf "RUN mkdir -p /".toList = false)
    (hCdot : pat.isPrefixOf "COPY . /".toList = false)
    (hWork : pat.isPrefixOf "WORKDIR /".toList = false)
    (hTest : pat.isPrefixOf "RUN CGO_ENABLED=0 go test ./...".toList = false)
    (hBuild : pat.isPrefixOf
      "RUN CGO_ENABLED=0 GOOS=linux GOARCH=amd64 go build ".toList = false)
    (hScr : pat.isPrefixOf "FROM scratch".toList = false)
    (hCfrom : pat.isPrefixOf "COPY --from=builder /".toList = false)
    (hUser : pat.isPrefixOf "USER appuser".toList = false)
    (hEntry : pat.isPrefixOf "ENTRYPOINT [\"/".toList = false)
    (hm : linesHavePrefix pat (renderLines d pn vm) = true) :
    (d.port ≠ "" ∧ pat.isPrefixOf ("EXPOSE " ++ d.port).toList = true) ∨
    (d.timezone ≠ "" ∧ pat.isPrefixOf ("ENV TZ=" ++ d.timezone).toList = true) := by
  unfold linesHavePrefix renderLines at hm
  rw [List.any_eq_true] at hm
  obtain ⟨l, hl, hp⟩ := hm
  simp only [List.mem_append, List.mem_cons, List.mem_map, List.not_mem_nil, or_false,
    mem_ite_singleton, List.mem_singleton] at hl
  rcases hl with
    ((((((((((((rfl | rfl | rfl | rfl) | ⟨v, hv, rfl⟩) | (rfl | rfl)) | ⟨htest, rfl⟩) |
      rfl) | (rfl | rfl | rfl | rfl)) | ⟨htz, rfl⟩) | rfl) | ⟨v, hv, rfl⟩) |
      ⟨v, hv, rfl⟩) | rfl) | ⟨hport, rfl⟩) | rfl
  · exact (prefix_bash2 pat "FROM golang:".toList
      (d.version.toList ++ " as builder".toList) _ hp
      (by simp [toList_append, List.append_assoc])
      (Nat.le_trans hlen (by decide)) hFROMg).elim
  · exact (bool_clash hp hApk).elim
  · exact (bool_clash hp hAdd).elim
  · exact (prefix_bash2 pat "RUN mkdir -p /".toList pn.toList _ hp
      (by simp [toList_append, List.append_assoc])
      (Nat.le_trans hlen (by decide)) hMkd).elim
  · exact (prefix_bash2 pat "RUN mkdir -p /".toList
      (pn.toList ++ ("/".toList ++ v.toList)) _ hp
      (by simp [toList_append, List.append_assoc])
      (Nat.le_trans hlen (by decide)) hMkd).elim
  · exact (prefix_bash2 pat "COPY . /".toList pn.toList _ hp
      (by simp [toList_append, List.append_assoc])
      (Nat.le_trans hlen (by decide)) hCdot).elim
  · exact (prefix_bash2 pat "WORKDIR /".toList pn.toList _ hp
      (by simp [toList_append, List.append_assoc])
      (Nat.le_trans hlen (by decide)) hWork).elim
  · exact (bool_clash hp hTest).elim
  · exact (prefix_bash2 pat
      "RUN CGO_ENABLED=0 GOOS=linux GOARCH=amd64 go build ".toList
      ((if vm then "-mod=vendor" else ("" : String)).toList ++
        (" -ldflags=\"-w -s\" -o /".toList ++ pn.toList)) _ hp
      (by simp [buildDirective, toList_append, List.append_assoc])
      (Nat.le_trans hlen (by decide)) hBuild).elim
  · exact (bool_clash hp hScr).elim
  · exact (prefix_bash2 pat "COPY --from=builder /".toList
      "usr/share/zoneinfo /usr/share/zoneinfo".toList _ hp (by decide)
      (Nat.le_trans hlen (by decide)) hCfrom).elim
  · exact (prefix_bash2 pat "COPY --from=builder /".toList
      "etc/ssl/certs/ca-certificates.crt /etc/ssl/certs/".toList _ hp (by decide)
      (Nat.le_trans hlen (by decide)) hCfrom).elim
  · exact (prefix_bash2 pat "COPY --from=builder /".toList
      "etc/passwd /etc/passwd".toList _ hp (by decide)
      (Nat.le_trans hlen (by decide)) hCfrom).elim
  · exact Or.inr ⟨htz, hp⟩
  · exact (prefix_bash2 pat "COPY --from=builder /".toList
      (pn.toList ++ (" /".toList ++ pn.toList)) _ hp
      (by simp [toList_append, List.append_assoc])
      (Nat.le_trans hlen (by decide)) hCfrom).elim
  · exact (prefix_bash2 pat "COPY --from=builder /".toList
      (pn.toList ++ ("/".toList ++ (v.toList ++ (" /".toList ++
        (pn.toList ++ ("/".toList ++ v.toList)))))) _ hp
      (by simp [toList_append, List.append_assoc])
      (Nat.le_trans hlen (by decide)) hCfrom).elim
  · exact (prefix_bash2 pat "COPY --from=builder /".toList
      (pn.toList ++ ("/".toList ++ (v.toList ++ (" /".toList ++
        (pn.toList ++ ("/".toList ++ v.toList)))))) _ hp
      (by simp [toList_append, List.append_assoc])
      (Nat.le_trans hlen (by decide)) hCfrom).elim
  · exact (bool_clash hp hUser).elim
  · exact Or.inl ⟨hport, hp⟩
  · exact (prefix_bash2 pat "ENTRYPOINT [\"/".toList
      (pn.toList ++ "\"]".toList) _ hp
      (by simp [toList_append, List.append_assoc])
      (Nat.le_trans hlen (by decide)) hEntry).elim

/-! ### Lemmas about ReplaceAll and line reading -/

theorem replaceAllGo_id_of_no_occur (pat rep : List Char) :
    ∀ fuel l, l.length ≤ fuel → occursIn pat l = false →
      replaceAllGo pat rep fuel l = l := by
  intro fuel
  induction fuel with
  | zero =>
    intro l hl _
    cases l with
    | nil => rfl
    | cons c cs => simp at hl
  | succ f ih =>
    intro l hl ho
    cases l with
    | nil => rfl
    | cons c cs =>
      have h2 : pat.isPrefixOf (c :: cs) = false ∧ occursIn pat cs = false := by
        simpa [occursIn] using ho
      rw [replaceAllGo, if_neg (by simp [h2.1])]
      rw [ih cs (by simp at hl; omega) h2.2]

theorem replaceAllGo_head (pat rep : List Char) (hne : pat ≠ []) (fuel : Nat)
    (l : List Char) :
    replaceAllGo pat rep (fuel + 1) (pat ++ l) = rep ++ replaceAllGo pat rep fuel l := by
  cases pat with
  | nil => exact absurd rfl hne
  | cons a as =>
    rw [List.cons_append, replaceAllGo,
        if_pos (show (a :: as).isPrefixOf (a :: (as ++ l)) = true from
          isPrefixOf_self_append (a :: as) l)]
    congr 1
    rw [show (a :: as).length - 1 = as.length by simp, List.drop_left]

theorem replaceAll_strip_head (pat rep l : List Char) (hne : pat ≠ [])
    (ho : occursIn pat l = false) :
    replaceAllL pat rep (pat ++ l) = rep ++ l := by
  unfold replaceAllL
  have h1 : (pat ++ l).length = (pat.length - 1 + l.length) + 1 := by
    cases pat with
    | nil => exact absurd rfl hne
    | cons a as => simp [List.length_append]
  rw [h1, replaceAllGo_head pat rep hne _ l,
      replaceAllGo_id_of_no_occur pat rep _ l (Nat.le_add_left _ _) ho]

theorem replaceAllGo_nil (pat rep : List Char) (fuel : Nat) :
    replaceAllGo pat rep fuel [] = [] := by
  cases fuel <;> rfl

theorem replaceAllGo_strip_tail (q : Char) (l : List Char) (hq : q ∉ l) :
    ∀ fuel, l.length + 1 ≤ fuel → replaceAllGo [q] [] fuel (l ++ [q]) = l := by
  induction l with
  | nil =>
    intro fuel hf
    cases fuel with
    | zero => simp at hf
    | succ f =>
      rw [List.nil_append, replaceAllGo, if_pos (by simp [List.isPrefixOf])]
      simp [replaceAllGo_nil]
  | cons a as ih =>
    intro fuel hf
    cases fuel with
    | zero => simp at hf
    | succ f =>
      have hne : q ≠ a := fun h => hq (h ▸ List.mem_cons_self a as)
      rw [List.cons_append, replaceAllGo, if_neg (by simp [List.isPrefixOf, hne])]
      rw [ih (fun h => hq (List.mem_cons_of_mem _ h)) f (by simp at hf; omega)]

theorem replaceAll_strip_quotes (l : List Char) (q : Char) (hq : q ∉ l) :
    replaceAllL [q] [] (q :: (l ++ [q])) = l := by
  unfold replaceAllL
  have h1 : (q :: (l ++ [q])).length = (l.length + 1) + 1 := by simp
  rw [h1, replaceAllGo, if_pos (by simp [List.isPrefixOf])]
  simpa using replaceAllGo_strip_tail q l hq (l.length + 1) le_rfl

theorem replaceAllGo_single_map (a b : Char) :
    ∀ fuel l, l.length ≤ fuel →
      replaceAllGo [a] [b] fuel l = l.map (fun c => if c = a then b else c) := by
  intro fuel
  induction fuel with
  | zero =>
    intro l hl
    cases l with
    | nil => rfl
    | cons c cs => simp at hl
  | succ f ih =>
    intro l hl
    cases l with
    | nil => rfl
    | cons c cs =>
      by_cases h : a = c
      · subst h
        rw [replaceAllGo, if_pos (by simp [List.isPrefixOf])]
        simp [ih cs (by simp at hl; omega)]
      · have h2 : ¬(c = a) := fun hh => h hh.symm
        rw [replaceAllGo, if_neg (by simp [List.isPrefixOf, h])]
        simp [ih cs (by simp at hl; omega), h2]

theorem replaceAll_dot_map (l : List Char) :
    replaceAllL ['.'] ['_'] l = l.map (fun c => if c = '.' then '_' else c) :=
  replaceAllGo_single_map '.' '_' l.length l le_rfl

theorem takeWhile_all (l : List Char) (p : Char → Bool) (h : ∀ c ∈ l, p c = true) :
    l.takeWhile p = l := by
  induction l with
  | nil => rfl
  | cons c cs ih =>
    rw [List.takeWhile_cons, if_pos (h c (List.mem_cons_self c cs))]
    rw [ih (fun x hx => h x (List.mem_cons_of_mem c hx))]

theorem readFirstLine_no_newline (s : String) (hnl : ∀ c ∈ s.toList, c ≠ '\n')
    (hne : s.toList ≠ []) : readFirstLine s = some s.toList := by
  unfold readFirstLine
  rw [if_neg hne]
  have ht : s.toList.takeWhile (fun x => x ≠ '\n') = s.toList :=
    takeWhile_all _ _ (fun c hc => by simpa using hnl c hc)
  simp only [ht]
  rw [if_neg (by simp)]

theorem parsePackageName_eq (content : String) (l : List Char)
    (h : readFirstLine content = some l) :
    parsePackageName content = parseModuleLine l := by
  unfold parsePackageName
  rw [h]

/-! ### Lemmas about the version probe -/

theorem numRunsAux_flatten (l cur : List Char) :
    (numRunsAux cur l).flatten = cur.reverse ++ l.filter digitOrDot := by
  induction l generalizing cur with
  | nil => by_cases h : cur = [] <;> simp [numRunsAux, h]
  | cons c cs ih =>
    by_cases hd : digitOrDot c = true
    · simp [numRunsAux, hd, ih, List.filter_cons]
    · by_cases h : cur = [] <;> simp [numRunsAux, hd, h, ih, List.filter_cons]

theorem numRunsAux_ne_nil (l cur : List Char) (h : cur ≠ []) : numRunsAux cur l ≠ [] := by
  induction l generalizing cur with
  | nil => simp [numRunsAux, h]
  | cons c cs ih =>
    by_cases hd : digitOrDot c = true
    · simpa [numRunsAux, hd] using ih (c :: cur) (by simp)
    · simp [numRunsAux, hd, h]

theorem numRunsAux_nil_iff (l : List Char) :
    numRunsAux [] l = [] ↔ l.filter digitOrDot = [] := by
  induction l with
  | nil => simp [numRunsAux]
  | cons c cs ih =>
    by_cases hd : digitOrDot c = true
    · have hne := numRunsAux_ne_nil cs [c] (by simp)
      simp [numRunsAux, hd, List.filter_cons, hne]
    · simp [numRunsAux, hd, List.filter_cons, ih]

/-- The spec's formulation of the version probe result: since the
extracted runs are exactly the maximal digit-or-period chunks in order,
their separator-free concatenation is the digit-or-period character
subsequence of the input. -/
def specVersionTag (v : String) : String :=
  if v.toList.filter digitOrDot = [] then defaultTagVersion
  else String.mk (v.toList.filter digitOrDot) ++ "-" ++ defaultTagVersion

/-- C2: evaluation of the resolver at the failing input: a manifest
whose first line is empty (content `"\n"`) makes `module[0]` abort with
an index-out-of-range panic (modelled as `none`), while an empty file
and an unopenable file do return the fallback identifier. -/
theorem c2_resolver_aborts :
    parsePackageName "\n" = none ∧ parsePackageName "" = some defaultAppName ∧
      getPackageName none = some defaultAppName := by decide

/-- C3 counterexample: the input `"."` contains no digit, yet the probe
returns `".-alpine"`, not the bare flavor tag, because the regexp class
`[0-9.]` also matches a period-only run. -/
theorem c3_counterexample :
    (∀ c ∈ (".").toList, c.isDigit = false) ∧ getVersion "." ≠ defaultTagVersion := by
  decide

/-- C3 (amended): for every runtime-version string the probe returns the
bare flavor tag when the string contains no digit-or-period character,
and otherwise the concatenation of all extracted digit-or-period runs in
order of appearance with no separator, followed by `-` and the flavor
suffix; in particular every input with no digits *and no periods* yields
the bare flavor tag. -/
theorem c3_version_contract (v : String) :
    getVersion v = specVersionTag v ∧
      ((∀ c ∈ v.toList, c.isDigit = false ∧ c ≠ '.') →
        getVersion v = defaultTagVersion) := by
  have hmain : getVersion v = specVersionTag v := by
    unfold getVersion specVersionTag
    by_cases h : numRunsAux [] v.toList = []
    · rw [if_pos h, if_pos ((numRunsAux_nil_iff _).mp h)]
    · rw [if_neg h, if_neg (fun hf => h ((numRunsAux_nil_iff _).mpr hf))]
      have := numRunsAux_flatten v.toList []
      simp only [List.reverse_nil, List.nil_append] at this
      rw [this]
  refine ⟨hmain, fun h => ?_⟩
  rw [hmain]
  unfold specVersionTag
  rw [if_pos]
  rw [List.filter_eq_nil_iff]
  intro c hc
  have := h c hc
  simp [digitOrDot, this.1, this.2]

/-- Witness for the C3 contract at concrete inputs. -/
theorem c3_version_contract_witness :
    getVersion "abc" = specVersionTag "abc" ∧ getVersion "abc" = defaultTagVersion :=
  ⟨(c3_version_contract "abc").1, (c3_version_contract "abc").2 (by decide)⟩

/-- C4: for a manifest first line `module X` or `module "X"` — with `X`
a non-empty module path containing no quotation mark, no space and no
newline — the resolver returns the last `/`-delimited segment of `X`
with every period replaced by an underscore. -/
theorem c4_module_name (X : String) (hne : X ≠ "") (hq : '"' ∉ X.toList)
    (hsp : ' ' ∉ X.toList) (hnl : '\n' ∉ X.toList) :
    parsePackageName ("module " ++ X) = some (lastSegUnderscored X) ∧
    parsePackageName ("module \"" ++ X ++ "\"") = some (lastSegUnderscored X) := by
  have hXne : X.toList ≠ [] := fun h => hne (String.ext h)
  obtain ⟨x, xs, hX⟩ : ∃ x xs, X.toList = x :: xs := by
    cases hX : X.toList with
    | nil => exact absurd hX hXne
    | cons a as => exact ⟨a, as, rfl⟩
  have hxq : ¬(x = '"') := fun h => hq (by rw [hX]; exact h ▸ List.mem_cons_self x xs)
  have hkw : ∀ c ∈ "module ".toList, c ≠ '\n' := by decide
  have hnoX : occursIn "module ".toList X.toList = false := by
    cases ho : occursIn "module ".toList X.toList with
    | false => rfl
    | true => exact absurd (occursIn_sub _ _ ho ' ' (by decide)) hsp
  constructor
  · have hcl : ("module " ++ X).toList = "module ".toList ++ X.toList :=
      toList_append _ _
    have hr : readFirstLine ("module " ++ X) =
        some ("module ".toList ++ X.toList) := by
      refine (readFirstLine_no_newline _ ?_ ?_).trans (congrArg some hcl)
      · intro c hc
        rw [hcl] at hc
        rcases List.mem_append.mp hc with h | h
        · exact hkw c h
        · exact fun he => hnl (he ▸ h)
      · rw [hcl]
        simp
    rw [parsePackageName_eq _ _ hr]
    unfold parseModuleLine
    rw [replaceAll_strip_head _ _ _ (by decide) hnoX, List.nil_append, hX]
    show some (String.mk (replaceAllL ['.'] ['_']
      (((if x = '"' then replaceAllL ['"'] [] (x :: xs) else x :: xs).splitOn
          '/').getLastD []))) = some (lastSegUnderscored X)
    rw [if_neg hxq, replaceAll_dot_map]
    unfold lastSegUnderscored
    rw [hX]
  · have hcl2 : ("module \"" ++ X ++ "\"").toList =
        "module ".toList ++ ('"' :: (X.toList ++ ['"'])) := by
      rw [toList_append, toList_append,
          show ("module \"").toList = "module ".toList ++ ['"'] from by decide]
      simp [List.append_assoc]
    have hnoW : occursIn "module ".toList ('"' :: (X.toList ++ ['"'])) = false := by
      cases ho : occursIn "module ".toList ('"' :: (X.toList ++ ['"'])) with
      | false => rfl
      | true =>
        have hmem := occursIn_sub _ _ ho ' ' (by decide)
        simp only [List.mem_cons, List.mem_append, List.not_mem_nil, or_false] at hmem
        rcases hmem with h | h | h
        · exact absurd h (by decide)
        · exact absurd h hsp
        · exact absurd h (by decide)
    have hr2 : readFirstLine ("module \"" ++ X ++ "\"") =
        some ("module ".toList ++ ('"' :: (X.toList ++ ['"']))) := by
      refine (readFirstLine_no_newline _ ?_ ?_).trans (congrArg some hcl2)
      · intro c hc
        rw [hcl2] at hc
        simp only [List.mem_append, List.mem_cons, List.not_mem_nil, or_false] at hc
        rcases hc with h | h | h | h
        · exact hkw c h
        · exact h ▸ (by decide)
        · exact fun he => hnl (he ▸ h)
        · exact h ▸ (by decide)
      · rw [hcl2]
        simp
    rw [parsePackageName_eq _ _ hr2]
    unfold parseModuleLine
    rw [replaceAll_strip_head _ _ _ (by decide) hnoW, List.nil_append]
    show some (String.mk (replaceAllL ['.'] ['_']
      (((if ('"' : Char) = '"'
          then replaceAllL ['"'] [] ('"' :: (X.toList ++ ['"']))
          else '"' :: (X.toList ++ ['"'])).splitOn '/').getLastD []))) =
      some (lastSegUnderscored X)
    rw [if_pos rfl, replaceAll_strip_quotes X.toList '"' hq, replaceAll_dot_map]
    rfl

/-- Witness for C4 at the module path `github.com/org/project.name`. -/
theorem c4_module_name_witness :
    parsePackageName ("module " ++ "github.com/org/project.name") =
      some (lastSegUnderscored "github.com/org/project.name") ∧
    parsePackageName ("module \"" ++ "github.com/org/project.name" ++ "\"") =
      some (lastSegUnderscored "github.com/org/project.name") :=
  c4_module_name "github.com/org/project.name" (by decide) (by decide) (by decide)
    (by decide)

/-- C5: as long as project-name resolution returns (does not panic),
`GenerateDockerfile` returns an error exactly when the final write
fails, and it is the write's error unchanged; but with a manifest whose
first line is empty the run aborts inside `parsePackageName` before the
write, so not every pre-write step is failure-free. -/
theorem c5_write_failure_only (d : Docen) (env : Env) (pn : String)
    (h : getPackageName env.goMod = some pn) :
    ((∀ e, generateDockerfile d env = some (Except.error e) ↔ env.writeErr = some e) ∧
     (env.writeErr = none → generateDockerfile d env = some (Except.ok ()))) ∧
    generateDockerfile d ⟨env.runVer, some "\n", env.listing, env.writeErr⟩ = none := by
  refine ⟨⟨fun e => ?_, fun hw => ?_⟩, ?_⟩
  · simp only [generateDockerfile, assembledLines, h, Option.map_some]
    cases hw : env.writeErr with
    | none => simp [createDockerfile]
    | some e2 => simp [createDockerfile]
  · simp [generateDockerfile, assembledLines, h, hw, createDockerfile]
  · have hp : parsePackageName "\n" = none := by decide
    simp [generateDockerfile, assembledLines, getPackageName, hp]

/-- Witness for C5 at a concrete configuration and environment: no
manifest, successful write, and the aborting manifest variant. -/
theorem c5_write_failure_only_witness :
    ((∀ e, generateDockerfile zeroDocen ⟨"", none, none, none⟩ = some (Except.error e) ↔
        (none : Option String) = some e) ∧
     ((none : Option String) = none →
        generateDockerfile zeroDocen ⟨"", none, none, none⟩ = some (Except.ok ()))) ∧
    generateDockerfile zeroDocen ⟨"", some "\n", none, none⟩ = none :=
  c5_write_failure_only zeroDocen ⟨"", none, none, none⟩ "app" rfl

/-- C6: on a default-constructed configuration, any positive number of
`SetAdditionalFile p` calls succeeds and leaves exactly one membership
for `p` in the file set, and `p`'s parent directory (`filepath.Dir p`)
is a member of the folder set. -/
theorem c6_addfile_idempotent (env : Env) (p : String) (n : Nat) :
    ∃ d2, addFileN (New env) p (n + 1) = some d2 ∧
      d2.additionFiles = GoMapSet.keys [p] ∧
      d2.additionFiles.countKey p = 1 ∧
      d2.additionFolders.memb (filepathDir p) = true := by
  obtain ⟨gs, hg⟩ := getAdditionalFolders_keys env.listing
  refine ⟨⟨"", getVersion env.runVer, "", .keys (setKeys gs (filepathDir p)),
           .keys [p], false⟩, ?_, rfl, ?_, ?_⟩
  · have h1 := setAdditionalFile_new env p gs hg
    have hk1 : setKeys [p] p = [p] := setKeys_mem_id _ _ (by simp)
    have hk2 : setKeys (setKeys gs (filepathDir p)) (filepathDir p) =
        setKeys gs (filepathDir p) :=
      setKeys_mem_id _ _ (mem_setKeys_self gs (filepathDir p))
    have h2 : SetAdditionalFile
        ⟨"", getVersion env.runVer, "", .keys (setKeys gs (filepathDir p)),
         .keys [p], false⟩ p =
        some ⟨"", getVersion env.runVer, "", .keys (setKeys gs (filepathDir p)),
              .keys [p], false⟩ := by
      simp [SetAdditionalFile, SetAdditionalFolder, GoMapSet.set, hk1, hk2]
    rw [addFileN, h1]
    exact addFileN_fixed _ _ h2 n
  · simp [GoMapSet.countKey]
  · simp [GoMapSet.memb, mem_setKeys_self]

/-- C9: on the zero-value `Docen` (nil maps), `SetAdditionalFolder` and
`SetAdditionalFile` abort on the nil-map assignment (`none`) instead of
inserting and returning the handle, while on a `New`-constructed value
both setters always succeed. -/
theorem c9_nil_map_setters (p : String) :
    SetAdditionalFolder zeroDocen p = none ∧
    SetAdditionalFile zeroDocen p = none ∧
    (∀ env, (SetAdditionalFolder (New env) p).isSome = true) ∧
    (∀ env, (SetAdditionalFile (New env) p).isSome = true) := by
  refine ⟨rfl, rfl, fun env => ?_, fun env => ?_⟩
  · obtain ⟨gs, hg⟩ := getAdditionalFolders_keys env.listing
    simp [SetAdditionalFolder, New, hg, GoMapSet.set]
  · obtain ⟨gs, hg⟩ := getAdditionalFolders_keys env.listing
    rw [setAdditionalFile_new env p gs hg]
    rfl

theorem dropWhile_all_eq_nil (l : List Char) (q : Char → Bool)
    (h : ∀ c ∈ l, q c = true) : l.dropWhile q = [] := by
  induction l with
  | nil => rfl
  | cons c cs ih =>
    rw [List.dropWhile_cons, if_pos (h c (by simp))]
    exact ih (fun x hx => h x (by simp [hx]))

theorem filepathDir_no_sep (p : String) (hp : ∀ c ∈ p.toList, c ≠ '/') :
    filepathDir p = "." := by
  unfold filepathDir
  rw [dropWhile_all_eq_nil _ _ (fun c hc => by
    simp only [decide_eq_true_eq]
    exact hp c (List.mem_reverse.mp hc))]
  rfl

/-- C10: adding a file path with no path separator to a
default-constructed configuration puts the path in the file set and the
one-character string `.` in the folder set, so the rendered lines contain
a directory-creation directive and a stage-to-stage copy directive whose
folder component is `.` (paths of the form `/<project>/.`). -/
theorem c10_no_separator_file (env : Env) (p pn : String) (vm : Bool)
    (hp : ∀ c ∈ p.toList, c ≠ '/') :
    ∃ d2, SetAdditionalFile (New env) p = some d2 ∧
      d2.additionFiles.memb p = true ∧
      d2.additionFolders.memb "." = true ∧
      ("RUN mkdir -p /" ++ pn ++ "/" ++ ".") ∈ renderLines d2 pn vm ∧
      ("COPY --from=builder /" ++ pn ++ "/" ++ "." ++ " /" ++ pn ++ "/" ++ ".")
        ∈ renderLines d2 pn vm := by
  obtain ⟨gs, hg⟩ := getAdditionalFolders_keys env.listing
  have hdir := filepathDir_no_sep p hp
  have h1 := setAdditionalFile_new env p gs hg
  rw [hdir] at h1
  refine ⟨_, h1, by simp [GoMapSet.memb], by simp [GoMapSet.memb, mem_setKeys_self], ?_, ?_⟩
  · have hmap : ("RUN mkdir -p /" ++ pn ++ "/" ++ ".") ∈
        (setKeys gs ".").map (fun v => "RUN mkdir -p /" ++ pn ++ "/" ++ v) :=
      List.mem_map_of_mem _ (mem_setKeys_self gs ".")
    unfold renderLines
    exact List.mem_append_left _ (List.mem_append_left _ (List.mem_append_left _
      (List.mem_append_left _ (List.mem_append_left _ (List.mem_append_left _
      (List.mem_append_left _ (List.mem_append_left _ (List.mem_append_left _
      (List.mem_append_left _ (List.mem_append_left _
      (List.mem_append_right _ hmap)))))))))))
  · have hmap : ("COPY --from=builder /" ++ pn ++ "/" ++ "." ++ " /" ++ pn ++ "/" ++ ".") ∈
        (setKeys gs ".").map
          (fun v => "COPY --from=builder /" ++ pn ++ "/" ++ v ++ " /" ++ pn ++ "/" ++ v) :=
      List.mem_map_of_mem _ (mem_setKeys_self gs ".")
    unfold renderLines
    exact List.mem_append_left _ (List.mem_append_left _ (List.mem_append_left _
      (List.mem_append_left _ (List.mem_append_right _ hmap))))

/-- Witness for C10 at the concrete path `file`. -/
theorem c10_no_separator_file_witness :
    ∃ d2, SetAdditionalFile (New ⟨"go1.13", none, none, none⟩) "file" = some d2 ∧
      d2.additionFiles.memb "file" = true ∧
      d2.additionFolders.memb "." = true ∧
      ("RUN mkdir -p /" ++ "app" ++ "/" ++ ".") ∈ renderLines d2 "app" false ∧
      ("COPY --from=builder /" ++ "app" ++ "/" ++ "." ++ " /" ++ "app" ++ "/" ++ ".")
        ∈ renderLines d2 "app" false :=
  c10_no_separator_file ⟨"go1.13", none, none, none⟩ "file" "app" false (by decide)

/-- C7: the assembled lines contain an expose directive iff `port` is
non-empty and a timezone directive iff `timezone` is non-empty; a
default-constructed configuration has both fields empty, and generating
immediately after construction succeeds (with a successful write) — the
two directives are simply omitted. -/
theorem c7_optional_directives (d : Docen) (pn : String) (vm : Bool) (env : Env) :
    (linesHavePrefix exposePat (renderLines d pn vm) = true ↔ d.port ≠ "") ∧
    (linesHavePrefix tzPat (renderLines d pn vm) = true ↔ d.timezone ≠ "") ∧
    ((New env).port = "" ∧ (New env).timezone = "") ∧
    (env.goMod = none → env.writeErr = none →
      generateDockerfile (New env) env = some (Except.ok ())) := by
  refine ⟨⟨?_, ?_⟩, ⟨?_, ?_⟩, ⟨rfl, rfl⟩, ?_⟩
  · intro hm
    rcases matched_line_cases d pn vm exposePat (by decide) (by decide) (by decide)
      (by decide) (by decide) (by decide) (by decide) (by decide) (by decide)
      (by decide) (by decide) (by decide) (by decide) hm with
      ⟨hport, _⟩ | ⟨_, habs⟩
    · exact hport
    · exact (prefix_bash2 exposePat "ENV TZ=".toList d.timezone.toList _
        habs (toList_append _ _) (by decide) (by decide)).elim
  · intro hport
    unfold linesHavePrefix
    rw [List.any_eq_true]
    refine ⟨"EXPOSE " ++ d.port, ?_, ?_⟩
    · unfold renderLines
      refine List.mem_append_left _ (List.mem_append_right _ ?_)
      rw [if_pos hport]
      exact List.mem_singleton.mpr rfl
    · rw [toList_append]
      exact isPrefixOf_self_append _ _
  · intro hm
    rcases matched_line_cases d pn vm tzPat (by decide) (by decide) (by decide)
      (by decide) (by decide) (by decide) (by decide) (by decide) (by decide)
      (by decide) (by decide) (by decide) (by decide) hm with
      ⟨_, habs⟩ | ⟨htz, _⟩
    · exact (prefix_bash2 tzPat "EXPOSE ".toList d.port.toList _
        habs (toList_append _ _) (by decide) (by decide)).elim
    · exact htz
  · intro htz
    unfold linesHavePrefix
    rw [List.any_eq_true]
    refine ⟨"ENV TZ=" ++ d.timezone, ?_, ?_⟩
    · unfold renderLines
      refine List.mem_append_left _ (List.mem_append_left _ (List.mem_append_left _
        (List.mem_append_left _ (List.mem_append_left _ (List.mem_append_left _
        (List.mem_append_right _ ?_))))))
      rw [if_pos htz]
      exact List.mem_singleton.mpr rfl
    · rw [toList_append]
      exact isPrefixOf_self_append _ _
  · intro hgm hw
    simp [generateDockerfile, assembledLines, getPackageName, hgm, hw, createDockerfile]

/-- Witness for C7: construct-with-defaults in an environment with no
manifest, failed listing and successful write, then generate. -/
theorem c7_optional_directives_witness :
    generateDockerfile (New ⟨"go1.13", none, none, none⟩) ⟨"go1.13", none, none, none⟩ =
      some (Except.ok ()) :=
  (c7_optional_directives zeroDocen "app" false ⟨"go1.13", none, none, none⟩).2.2.2
    rfl rfl

/-- C8: provided the project name does not itself smuggle the token into
the vendor-free directive, the emitted build directive contains the
vendor-build flag token `-mod=vendor` iff the working-directory listing
succeeds and some listed entry is a directory named exactly `vendor`;
on a failed listing or without such a directory the flag is absent. -/
theorem c8_vendor_flag (listing : Option (List FileInfo)) (pn : String)
    (hno : occursIn vendorFlagChars (buildDirective pn false).toList = false) :
    (occursIn vendorFlagChars (buildDirective pn (isVendorMode listing)).toList = true ↔
      ∃ fs, listing = some fs ∧ ∃ f, f ∈ fs ∧ f.isDir = true ∧ f.name = "vendor") := by
  have hyes : occursIn vendorFlagChars (buildDirective pn true).toList = true := by
    have hb : (buildDirective pn true).toList =
        "RUN CGO_ENABLED=0 GOOS=linux GOARCH=amd64 go build ".toList ++
          (vendorFlagChars ++
            (" -ldflags=\"-w -s\" -o /".toList ++ pn.toList)) := by
      simp [buildDirective, toList_append, vendorFlagChars, List.append_assoc]
    rw [hb]
    exact occursIn_append_of _ _ _ (occursIn_self_append _ _)
  cases listing with
  | none =>
    rw [show isVendorMode none = false from rfl, hno]
    simp
  | some fs =>
    rw [show isVendorMode (some fs) = fs.any (fun f => f.isDir && f.name == "vendor")
      from rfl]
    cases hv : fs.any (fun f => f.isDir && f.name == "vendor") with
    | false =>
      rw [hno]
      constructor
      · intro h
        exact absurd h (by simp)
      · rintro ⟨fs2, hfs, f, hf, hdir, hname⟩
        injection hfs with hfs
        subst hfs
        have : fs.any (fun f => f.isDir && f.name == "vendor") = true :=
          List.any_eq_true.mpr ⟨f, hf, by simp [hdir, hname]⟩
        rw [hv] at this
        exact absurd this (by simp)
    | true =>
      rw [hyes]
      obtain ⟨f, hf, hfp⟩ := List.any_eq_true.mp hv
      simp only [Bool.and_eq_true, beq_iff_eq] at hfp
      exact iff_of_true rfl ⟨fs, rfl, f, hf, hfp.1, hfp.2⟩

/-- Witness for C8: project name `app`, a listing with a `vendor`
directory. -/
theorem c8_vendor_flag_witness :
    occursIn vendorFlagChars
      (buildDirective "app" (isVendorMode (some [⟨"vendor", true⟩]))).toList = true :=
  (c8_vendor_flag (some [⟨"vendor", true⟩]) "app" (by decide)).mpr
    ⟨[⟨"vendor", true⟩], rfl, ⟨"vendor", true⟩, by simp, rfl, rfl⟩

/-- C1: the claimed directive order fails on the assembled text of the
round-trip scenario: the expose directive `EXPOSE 3000` is emitted after
the timezone directive and the copy directives, not before them, so no
in-order match of the claimed sequence exists. -/
theorem c1_counterexample :
    Option.map (containsInOrder claimedOrder) scenarioText = some false := by decide

/-- C1 (amended): for the configuration built with version `1.14.9`,
port `3000`, timezone `Europe/Moscow`, test mode true, extra folder
`my-folder/some-files` and extra file `another-folder/some-files/file`,
the assembled text contains, in this order: a builder-stage header tagged
`golang:1.14.9-alpine`, a test-run directive, a build directive, the
timezone directive `ENV TZ=Europe/Moscow`, copy directives for the extra
folder and the extra file, and the expose directive `EXPOSE 3000`. -/
theorem c1_round_trip_order :
    Option.map (containsInOrder actualOrder) scenarioText = some true := by decide

end DocenModel
